import Mathlib

/-!
Verification of the autosmp adaptive CPU-pool controller
(`arch/arm/kernel/autosmp.c` in this repository, the second translation unit
of `src/drivers/leds/ledtrig-thermal.c`): a shallow embedding of its data
model and operations, followed by theorems about the claims of the spec.

Modelling conventions:
* the online mask of the pool is a `List Bool` indexed by cpu id (id 0 is the
  primary cpu); `nr_cpu_ids` is the list length;
* machine `unsigned long` values are `Nat`, with `ULONG_MAX = 2 ^ 64 - 1`
  made explicit where the source uses it as a sentinel;
* the external hotplug facility (`cpu_up` / `cpu_down` in the kernel) may
  fail; the source ignores those return values, so the embedding threads an
  explicit success flag `ok` through the operations instead;
* the `CONFIG_NR_CPUS > 2` build is modelled (the general controller).
-/

namespace Autosmp

/-- ULONG_MAX on a 64-bit target: initial value of `slow_rate` in
`get_slowest_cpu`. -/
def ULONG_MAX : Nat := 2 ^ 64 - 1

/-- Model of `struct asmp_param_struct`: the externally tunable parameter set. -/
structure AsmpParam where
  delay : Nat
  scroff_single_core : Bool
  max_cpus : Nat
  min_cpus : Nat
  load_limit_up : Nat
  load_limit_down : Nat
  cycle_up : Nat
  cycle_down : Nat
deriving Repr, DecidableEq

/-- Controller state: the online mask of the pool, the shared hysteresis counter
`cycle`, the `enabled` module flag, and whether the delayed work (the
periodic tick) is currently queued. -/
structure AsmpState where
  online : List Bool
  cycle : Nat
  enabled : Bool
  workScheduled : Bool
deriving Repr, DecidableEq

/-- Model of `cpu_online(cpu)`: bit `cpu` of the online mask (false out of range). -/
def cpu_online (online : List Bool) (cpu : Nat) : Bool :=
  online.getD cpu false

/-- Model of `num_online_cpus()`. -/
def num_online_cpus (online : List Bool) : Nat :=
  online.count true

/-- Model of `cpu_up(cpu)`: brings an offline cpu online.  No state change when the
cpu is already online or out of range, or when the hotplug action itself
fails (`ok = false`). -/
def cpu_up (ok : Bool) (online : List Bool) (cpu : Nat) : List Bool :=
  if ok = true ∧ cpu_online online cpu = false ∧ cpu < online.length
  then online.set cpu true else online

/-- Model of `cpu_down(cpu)`: takes an online cpu offline.  No state change when the
cpu is already offline or out of range, or when the hotplug action itself
fails (`ok = false`). -/
def cpu_down (ok : Bool) (online : List Bool) (cpu : Nat) : List Bool :=
  if ok = true ∧ cpu_online online cpu = true
  then online.set cpu false else online

/-- Loop of `get_slowest_cpu`, walking `(online bit, cpufreq rate)` pairs in
cpu order while carrying the current cpu id `idx` and the accumulator
`(slow_cpu, slow_rate)`. -/
def slowestAux : List (Bool × Nat) → Nat → Nat × Nat → Nat × Nat
  | [], _, acc => acc
  | (onb, rate) :: rest, idx, (sc, sr) =>
    if onb = true ∧ 0 < idx ∧ rate < sr
    then slowestAux rest (idx + 1) (idx, rate)
    else slowestAux rest (idx + 1) (sc, sr)

/-- Model of `get_slowest_cpu()`: among online cpus with id > 0, the first one with
the strictly smallest cpufreq rate (`rates` gives `cpufreq_get(cpu)` per
cpu); `slow_cpu` defaults to 1 with `slow_rate = ULONG_MAX`. -/
def get_slowest_cpu (online : List Bool) (rates : List Nat) : Nat :=
  (slowestAux (online.zip rates) 0 (1, ULONG_MAX)).1

/-- Scan of `cpumask_next_zero(0, mask)`: first index `> idx₀ = 0` whose bit
is clear, or the mask length when none is. -/
def nextZeroAux : List Bool → Nat → Nat
  | [], idx => idx
  | b :: rest, idx =>
    if 0 < idx ∧ b = false then idx else nextZeroAux rest (idx + 1)

/-- Model of `cpumask_next_zero(0, cpu_online_mask)`: the smallest cpu id > 0 whose
online bit is clear; the mask length when every such bit is set. -/
def cpumask_next_zero (online : List Bool) : Nat :=
  nextZeroAux online 0

/-- Model of `asmp_work_fn`: one tick of the decision engine.  `load` is the value
`get_rq_avg()` returns this tick, `rates` the per-cpu frequencies read by
`get_slowest_cpu`, `ok` whether the hotplug action the tick may attempt
succeeds.  The work requeues itself unconditionally at the end. -/
def asmp_work_fn (p : AsmpParam) (load : Nat) (rates : List Nat) (ok : Bool)
    (s : AsmpState) : AsmpState :=
  let cycle1 := s.cycle + 1
  let nr := num_online_cpus s.online
  if nr < p.max_cpus ∧ p.load_limit_up ≤ load then
    if p.cycle_up ≤ cycle1 then
      { s with online := cpu_up ok s.online (cpumask_next_zero s.online),
               cycle := 0, workScheduled := true }
    else { s with cycle := cycle1, workScheduled := true }
  else if p.min_cpus < nr ∧ load ≤ p.load_limit_down then
    if p.cycle_down ≤ cycle1 then
      { s with online := cpu_down ok s.online (get_slowest_cpu s.online rates),
               cycle := 0, workScheduled := true }
    else { s with cycle := cycle1, workScheduled := true }
  else { s with cycle := cycle1, workScheduled := true }

/-- The suspend loop `for (cpu = 1; cpu < nr_cpu_ids; cpu++) if (cpu_online(cpu))
cpu_down(cpu);` over `k` remaining iterations starting at id `cpu`. -/
def down_loop (online : List Bool) (cpu k : Nat) : List Bool :=
  match k with
  | 0 => online
  | k + 1 =>
    down_loop (if cpu_online online cpu = true
               then cpu_down true online cpu else online) (cpu + 1) k

/-- The resume / disable loop `for (cpu = 1; cpu < nr_cpu_ids; cpu++)
if (!cpu_online(cpu)) cpu_up(cpu);` over `k` remaining iterations. -/
def up_loop (online : List Bool) (cpu k : Nat) : List Bool :=
  match k with
  | 0 => online
  | k + 1 =>
    up_loop (if cpu_online online cpu = false
             then cpu_up true online cpu else online) (cpu + 1) k

/-- Model of `asmp_early_suspend`: if `scroff_single_core`, unplug every non-primary
online cpu; then, if `enabled`, cancel the pending tick (synchronously). -/
def asmp_early_suspend (p : AsmpParam) (s : AsmpState) : AsmpState :=
  { s with
    online := if p.scroff_single_core
              then down_loop s.online 1 (s.online.length - 1)
              else s.online,
    workScheduled := if s.enabled then false else s.workScheduled }

/-- Model of `asmp_late_resume`: if `scroff_single_core`, bring every offline cpu
(ids ≥ 1) back online; then, if `enabled`, requeue the tick. -/
def asmp_late_resume (p : AsmpParam) (s : AsmpState) : AsmpState :=
  { s with
    online := if p.scroff_single_core
              then up_loop s.online 1 (s.online.length - 1)
              else s.online,
    workScheduled := if s.enabled then true else s.workScheduled }

/-- Model of `set_enabled`: the `enabled` module-param store callback.
`param_set_bool` writes the new value; if now enabled the tick is queued,
otherwise the pending tick is cancelled (synchronously) and every offline
cpu with id ≥ 1 is brought back online. -/
def set_enabled (v : Bool) (s : AsmpState) : AsmpState :=
  let s1 : AsmpState := { s with enabled := v }
  if s1.enabled = true then { s1 with workScheduled := true }
  else { s1 with workScheduled := false,
                 online := up_loop s1.online 1 (s1.online.length - 1) }

/-- One controller step: a tick firing (possible only while the delayed work
is queued; load, rates and hotplug success are arbitrary environment
inputs), an early suspend, a late resume, or a write to the `enabled`
module param.  The parameter set is arbitrary at each step, modelling
concurrent sysfs writes to the tunables. -/
inductive Step : AsmpState → AsmpState → Prop
  | tick (p : AsmpParam) (load : Nat) (rates : List Nat) (ok : Bool)
      (s : AsmpState) (h : s.workScheduled = true) :
      Step s (asmp_work_fn p load rates ok s)
  | suspend (p : AsmpParam) (s : AsmpState) :
      Step s (asmp_early_suspend p s)
  | resume (p : AsmpParam) (s : AsmpState) :
      Step s (asmp_late_resume p s)
  | setEnabled (v : Bool) (s : AsmpState) :
      Step s (set_enabled v s)

/-- States reachable from `init` by any interleaving of controller steps. -/
def Reachable (init s : AsmpState) : Prop :=
  Relation.ReflTransGen Step init s

/-! ## Basic lemmas about the online mask -/

theorem cpu_online_set_of_ne (l : List Bool) (b : Bool) (c i : Nat)
    (hne : c ≠ i) : cpu_online (l.set c b) i = cpu_online l i := by
  induction l generalizing c i with
  | nil => simp [cpu_online]
  | cons hd tl ih =>
    cases c with
    | zero =>
      cases i with
      | zero => exact absurd rfl hne
      | succ j => simp [cpu_online]
    | succ c =>
      cases i with
      | zero => simp [cpu_online]
      | succ j =>
        simpa [cpu_online, List.getD] using
          ih c j (fun h => hne (by simpa using congrArg Nat.succ h))

theorem cpu_online_set_true (l : List Bool) (c i : Nat)
    (h : cpu_online l i = true) : cpu_online (l.set c true) i = true := by
  by_cases hc : c = i
  · subst hc
    induction l generalizing c with
    | nil => simpa [cpu_online] using h
    | cons hd tl ih =>
      cases c with
      | zero => simp [cpu_online]
      | succ j => simpa [cpu_online] using ih j (by simpa [cpu_online] using h)
  · rw [cpu_online_set_of_ne l true c i hc]; exact h

theorem cpu_online_cpu_up (ok : Bool) (l : List Bool) (c i : Nat)
    (h : cpu_online l i = true) : cpu_online (cpu_up ok l c) i = true := by
  unfold cpu_up
  split
  · exact cpu_online_set_true l c i h
  · exact h

/-- Claim C9 helper is not needed: `set_enabled true` already normalises. -/
theorem set_enabled_true_eq (s : AsmpState) :
    set_enabled true s = { s with enabled := true, workScheduled := true } := by
  simp [set_enabled]

/-- Claim C9: enable() is idempotent — writing `enabled = 1` twice in a row
yields the same observable state (enabled flag, online mask, queued tick) as
writing it once; the second write changes nothing further. -/
theorem enable_idempotent (s : AsmpState) :
    set_enabled true (set_enabled true s) = set_enabled true s := by
  simp [set_enabled]

/-- Claim C10: scale-up has strict priority over scale-down.  When the
scale-up condition (online < max_cpus and load ≥ load_limit_up) and the
scale-down condition (online > min_cpus and load ≤ load_limit_down) hold
simultaneously, the tick never takes any cpu offline: every online cpu is
still online afterwards. -/
theorem tick_up_priority (p : AsmpParam) (load : Nat) (rates : List Nat)
    (ok : Bool) (s : AsmpState)
    (hup : num_online_cpus s.online < p.max_cpus ∧ p.load_limit_up ≤ load)
    (hdown : p.min_cpus < num_online_cpus s.online ∧ load ≤ p.load_limit_down)
    (i : Nat) (hon : cpu_online s.online i = true) :
    cpu_online (asmp_work_fn p load rates ok s).online i = true := by
  unfold asmp_work_fn
  simp only [if_pos hup]
  split
  · exact cpu_online_cpu_up ok s.online (cpumask_next_zero s.online) i hon
  · exact hon

/-- Witness for C10 at a concrete dead-band-inverted configuration
(load_limit_down = 20 ≥ load_limit_up = 10, load = 15). -/
theorem tick_up_priority_witness :
    cpu_online (asmp_work_fn
      { delay := 100, scroff_single_core := true, max_cpus := 2,
        min_cpus := 0, load_limit_up := 10, load_limit_down := 20,
        cycle_up := 1, cycle_down := 1 } 15 [500, 300] true
      { online := [true, false], cycle := 0, enabled := true,
        workScheduled := true }).online 0 = true :=
  tick_up_priority _ 15 [500, 300] true
    { online := [true, false], cycle := 0, enabled := true,
      workScheduled := true }
    (by decide) (by decide) 0 (by decide)

theorem cpu_online_true_lt_length (l : List Bool) (i : Nat)
    (h : cpu_online l i = true) : i < l.length := by
  by_contra hge
  rw [cpu_online, List.getD_eq_default l false (by omega)] at h
  exact Bool.false_ne_true h

theorem one_le_count_of_primary (l : List Bool) (h : cpu_online l 0 = true) :
    1 ≤ num_online_cpus l := by
  cases l with
  | nil => simp [cpu_online] at h
  | cons b t =>
    have hb : b = true := by simpa [cpu_online] using h
    simp [num_online_cpus, List.count_cons, hb]

theorem count_true_eq_length_of_all (l : List Bool)
    (h : ∀ j, j < l.length → cpu_online l j = true) : l.count true = l.length := by
  induction l with
  | nil => simp
  | cons b t ih =>
    have hb : b = true := by simpa [cpu_online] using h 0 (by simp)
    have ht : t.count true = t.length :=
      ih (fun j hj => by simpa [cpu_online] using h (j + 1) (by simpa using hj))
    simp [List.count_cons, hb, ht]

theorem count_set_true_succ (l : List Bool) (c : Nat) (hc : c < l.length)
    (hbit : cpu_online l c = false) :
    (l.set c true).count true = l.count true + 1 := by
  induction l generalizing c with
  | nil => simp at hc
  | cons b t ih =>
    cases c with
    | zero =>
      have hb : b = false := by simpa [cpu_online] using hbit
      simp [hb, List.count_cons]
    | succ c =>
      have ht : (t.set c true).count true = t.count true + 1 :=
        ih c (by simpa using hc) (by simpa [cpu_online] using hbit)
      simp [List.count_cons, ht]
      omega

/-- Full characterisation of the `cpumask_next_zero` scan: either every bit
at a positive index is set and the scan returns `idx + length`, or it
returns the absolute index of the first clear bit at a positive index. -/
theorem nextZeroAux_spec (l : List Bool) (idx : Nat) :
    (nextZeroAux l idx = idx + l.length ∧
      ∀ j, j < l.length → 0 < idx + j → l.getD j false = true) ∨
    (∃ j, j < l.length ∧ 0 < idx + j ∧ l.getD j false = false ∧
      nextZeroAux l idx = idx + j ∧
      ∀ k, k < j → 0 < idx + k → l.getD k false = true) := by
  induction l generalizing idx with
  | nil =>
    left
    exact ⟨by simp [nextZeroAux], fun j hj _ => by simp at hj⟩
  | cons b t ih =>
    by_cases hc : 0 < idx ∧ b = false
    · right
      refine ⟨0, by simp, by simpa using hc.1, by simpa using hc.2, ?_, ?_⟩
      · simp [nextZeroAux, if_pos hc]
      · intro k hk _; omega
    · have hrec : nextZeroAux (b :: t) idx = nextZeroAux t (idx + 1) := by
        simp [nextZeroAux, if_neg hc]
      have hb : 0 < idx → b = true := by
        intro hidx
        cases b with
        | false => exact absurd ⟨hidx, rfl⟩ hc
        | true => rfl
      rcases ih (idx + 1) with ⟨heq, hall⟩ | ⟨j, hj, hpos, hbit, heq, hmin⟩

      · left
        constructor
        · rw [hrec, heq]; simp; omega
        · intro j hj hpos
          cases j with
          | zero => simpa using hb (by omega)
          | succ j' =>
            simpa using hall j' (by simpa using hj) (by omega)
      · right
        refine ⟨j + 1, by simpa using hj, by omega, by simpa using hbit,
          by rw [hrec, heq]; omega, ?_⟩
        intro k hk hpos
        cases k with
        | zero => simpa using hb (by omega)
        | succ k' =>
          simpa using hmin k' (by omega) (by omega)

/-- When the primary cpu is online and not every cpu is,
`cpumask_next_zero` returns the lowest-id offline cpu, which is a valid,
non-primary, currently-offline id. -/
theorem cpumask_next_zero_spec (l : List Bool) (h0 : cpu_online l 0 = true)
    (hlt : l.count true < l.length) :
    1 ≤ cpumask_next_zero l ∧ cpumask_next_zero l < l.length ∧
    cpu_online l (cpumask_next_zero l) = false ∧
    ∀ i, i < l.length → cpu_online l i = false → cpumask_next_zero l ≤ i := by
  rcases nextZeroAux_spec l 0 with ⟨_, hall⟩ | ⟨j, hj, hpos, hbit, heq, hmin⟩
  · exfalso
    have hfull : l.count true = l.length := by
      refine count_true_eq_length_of_all l (fun j hj => ?_)
      cases j with
      | zero => exact h0
      | succ j' => exact hall (j' + 1) hj (by omega)
    omega
  · have hz : cpumask_next_zero l = j := by
      simpa [cpumask_next_zero] using heq
    refine ⟨by omega, by omega, by rw [hz]; exact hbit, ?_⟩
    intro i hi hoff
    rw [hz]
    by_contra hgt
    have hi0 : 0 < i := by
      rcases Nat.eq_zero_or_pos i with h | h
      · subst h; rw [cpu_online] at h0; rw [cpu_online] at hoff
        rw [h0] at hoff; exact absurd hoff (by simp)
      · exact h
    have := hmin i (by omega) (by omega)
    rw [cpu_online] at hoff
    rw [this] at hoff
    exact absurd hoff (by simp)

/-- A tick whose scale-up condition holds but whose hysteresis threshold is
not yet reached only increments the counter. -/
theorem tick_up_wait (p : AsmpParam) (load : Nat) (rates : List Nat)
    (ok : Bool) (s : AsmpState)
    (hup : num_online_cpus s.online < p.max_cpus ∧ p.load_limit_up ≤ load)
    (hcyc : ¬ p.cycle_up ≤ s.cycle + 1) :
    asmp_work_fn p load rates ok s =
      { s with cycle := s.cycle + 1, workScheduled := true } := by
  unfold asmp_work_fn
  simp only [if_pos hup, if_neg hcyc]

/-- A tick whose scale-up condition and hysteresis threshold both hold, in a
state with the primary online and `max_cpus` within pool capacity, brings
exactly one more cpu online and resets the counter. -/
theorem tick_up_act (p : AsmpParam) (load : Nat) (rates : List Nat)
    (s : AsmpState)
    (hup : num_online_cpus s.online < p.max_cpus ∧ p.load_limit_up ≤ load)
    (hcyc : p.cycle_up ≤ s.cycle + 1)
    (h0 : cpu_online s.online 0 = true)
    (hmaxlen : p.max_cpus ≤ s.online.length) :
    num_online_cpus (asmp_work_fn p load rates true s).online =
      num_online_cpus s.online + 1 ∧
    (asmp_work_fn p load rates true s).cycle = 0 := by
  have hlt : s.online.count true < s.online.length := by
    have := hup.1
    simp only [num_online_cpus] at this
    omega
  obtain ⟨_, hzlen, hzoff, _⟩ := cpumask_next_zero_spec s.online h0 hlt
  unfold asmp_work_fn
  simp only [if_pos hup, if_pos hcyc]
  constructor
  · show num_online_cpus (cpu_up true s.online (cpumask_next_zero s.online)) = _
    rw [cpu_up, if_pos ⟨rfl, hzoff, hzlen⟩]
    exact count_set_true_succ s.online (cpumask_next_zero s.online) hzlen hzoff
  · trivial

/-- Counterexample to claim C2 as stated: in a dead-band tick (neither the
scale-up nor the scale-down condition holds), the shared counter still
increments — `cycle++` runs unconditionally at the top of `asmp_work_fn`,
before either condition is examined. -/
theorem deadband_tick_increments :
    ¬ (num_online_cpus [true, true] <
        (⟨100, true, 2, 1, 25, 5, 1, 5⟩ : AsmpParam).max_cpus ∧
       (⟨100, true, 2, 1, 25, 5, 1, 5⟩ : AsmpParam).load_limit_up ≤ 10) ∧
    ¬ ((⟨100, true, 2, 1, 25, 5, 1, 5⟩ : AsmpParam).min_cpus <
        num_online_cpus [true, true] ∧
       10 ≤ (⟨100, true, 2, 1, 25, 5, 1, 5⟩ : AsmpParam).load_limit_down) ∧
    (asmp_work_fn ⟨100, true, 2, 1, 25, 5, 1, 5⟩ 10 [500, 300] true
      ⟨[true, true], 0, true, true⟩).cycle = 0 + 1 := by
  decide

/-- Claim C2 amended: in every tick in which neither the scale-up condition
nor the scale-down condition holds, `cycle` increments by one (the increment
is unconditional in the source); it is reset to 0 only when an action is
attempted, and the online set is untouched by such a tick. -/
theorem deadband_tick_cycle (p : AsmpParam) (load : Nat) (rates : List Nat)
    (ok : Bool) (s : AsmpState)
    (hup : ¬ (num_online_cpus s.online < p.max_cpus ∧ p.load_limit_up ≤ load))
    (hdown : ¬ (p.min_cpus < num_online_cpus s.online ∧
                load ≤ p.load_limit_down)) :
    (asmp_work_fn p load rates ok s).cycle = s.cycle + 1 ∧
    (asmp_work_fn p load rates ok s).online = s.online := by
  unfold asmp_work_fn
  simp only [if_neg hup, if_neg hdown]
  constructor <;> trivial

/-- Witness for the amended C2 at the input of the counterexample. -/
theorem deadband_tick_cycle_witness :
    (asmp_work_fn ⟨100, true, 2, 1, 25, 5, 1, 5⟩ 10 [500, 300] true
      ⟨[true, true], 0, true, true⟩).cycle = 0 + 1 :=
  (deadband_tick_cycle ⟨100, true, 2, 1, 25, 5, 1, 5⟩ 10 [500, 300] true
    ⟨[true, true], 0, true, true⟩ (by decide) (by decide)).1

/-- Claim C3: with `cycle_up = 3`, capacity available and counter 0, three
consecutive high-load ticks scale up exactly once, on the third tick: the
first two ticks leave the online set untouched, the third brings exactly one
more cpu online and resets the counter. -/
theorem hysteresis_third_tick (p : AsmpParam) (l1 l2 l3 : Nat)
    (r1 r2 r3 : List Nat) (s : AsmpState)
    (hcu : p.cycle_up = 3) (hcyc0 : s.cycle = 0)
    (h0 : cpu_online s.online 0 = true)
    (hmaxlen : p.max_cpus ≤ s.online.length)
    (hcap : num_online_cpus s.online < p.max_cpus)
    (h1 : p.load_limit_up ≤ l1) (h2 : p.load_limit_up ≤ l2)
    (h3 : p.load_limit_up ≤ l3) :
    (asmp_work_fn p l1 r1 true s).online = s.online ∧
    (asmp_work_fn p l2 r2 true (asmp_work_fn p l1 r1 true s)).online =
      s.online ∧
    num_online_cpus (asmp_work_fn p l3 r3 true (asmp_work_fn p l2 r2 true
      (asmp_work_fn p l1 r1 true s))).online =
      num_online_cpus s.online + 1 ∧
    (asmp_work_fn p l3 r3 true (asmp_work_fn p l2 r2 true
      (asmp_work_fn p l1 r1 true s))).cycle = 0 := by
  have e1 : asmp_work_fn p l1 r1 true s =
      { s with cycle := s.cycle + 1, workScheduled := true } :=
    tick_up_wait p l1 r1 true s ⟨hcap, h1⟩ (by omega)
  have e2 : asmp_work_fn p l2 r2 true (asmp_work_fn p l1 r1 true s) =
      { s with cycle := s.cycle + 2, workScheduled := true } := by
    rw [e1]
    have := tick_up_wait p l2 r2 true
      { s with cycle := s.cycle + 1, workScheduled := true }
      ⟨hcap, h2⟩ (by simp; omega)
    simpa using this
  have e3 := tick_up_act p l3 r3
    { s with cycle := s.cycle + 2, workScheduled := true }
    ⟨hcap, h3⟩ (by simp; omega) h0 hmaxlen
  refine ⟨by rw [e1], by rw [e2], ?_, ?_⟩
  · rw [e2]; exact e3.1
  · rw [e2]; exact e3.2

/-- Witness for C3: three load-30 ticks from one online cpu of two. -/
theorem hysteresis_third_tick_witness :
    num_online_cpus (asmp_work_fn ⟨100, true, 2, 1, 25, 5, 3, 5⟩ 30 [] true
      (asmp_work_fn ⟨100, true, 2, 1, 25, 5, 3, 5⟩ 30 [] true
        (asmp_work_fn ⟨100, true, 2, 1, 25, 5, 3, 5⟩ 30 [] true
          ⟨[true, false], 0, true, true⟩))).online =
      num_online_cpus [true, false] + 1 :=
  (hysteresis_third_tick ⟨100, true, 2, 1, 25, 5, 3, 5⟩ 30 30 30 [] [] []
    ⟨[true, false], 0, true, true⟩ rfl rfl (by decide) (by decide) (by decide)
    (by decide) (by decide) (by decide)).2.2.1

theorem cpu_online_set_self (l : List Bool) (b : Bool) (c : Nat)
    (h : c < l.length) : cpu_online (l.set c b) c = b := by
  induction l generalizing c with
  | nil => simp at h
  | cons hd tl ih =>
    cases c with
    | zero => simp [cpu_online]
    | succ c => simpa [cpu_online] using ih c (by simpa using h)

theorem cpu_up_length (ok : Bool) (l : List Bool) (c : Nat) :
    (cpu_up ok l c).length = l.length := by
  rw [cpu_up]; split
  · exact List.length_set l c true
  · rfl

theorem cpu_down_length (ok : Bool) (l : List Bool) (c : Nat) :
    (cpu_down ok l c).length = l.length := by
  rw [cpu_down]; split
  · exact List.length_set l c false
  · rfl

theorem cpu_online_cpu_up_ne (ok : Bool) (l : List Bool) (c i : Nat)
    (h : c ≠ i) : cpu_online (cpu_up ok l c) i = cpu_online l i := by
  rw [cpu_up]; split
  · exact cpu_online_set_of_ne l true c i h
  · rfl

theorem cpu_online_cpu_down_ne (ok : Bool) (l : List Bool) (c i : Nat)
    (h : c ≠ i) : cpu_online (cpu_down ok l c) i = cpu_online l i := by
  rw [cpu_down]; split
  · exact cpu_online_set_of_ne l false c i h
  · rfl

theorem up_loop_length (k : Nat) : ∀ (online : List Bool) (cpu : Nat),
    (up_loop online cpu k).length = online.length := by
  induction k with
  | zero => intro online cpu; rfl
  | succ k ih =>
    intro online cpu
    show (up_loop _ (cpu + 1) k).length = _
    rw [ih]
    split
    · exact cpu_up_length true online cpu
    · rfl

theorem down_loop_length (k : Nat) : ∀ (online : List Bool) (cpu : Nat),
    (down_loop online cpu k).length = online.length := by
  induction k with
  | zero => intro online cpu; rfl
  | succ k ih =>
    intro online cpu
    show (down_loop _ (cpu + 1) k).length = _
    rw [ih]
    split
    · exact cpu_down_length true online cpu
    · rfl

theorem up_loop_online_lt (k : Nat) : ∀ (online : List Bool) (cpu i : Nat),
    i < cpu → cpu_online (up_loop online cpu k) i = cpu_online online i := by
  induction k with
  | zero => intro online cpu i _; rfl
  | succ k ih =>
    intro online cpu i hi
    show cpu_online (up_loop _ (cpu + 1) k) i = _
    rw [ih _ (cpu + 1) i (by omega)]
    split
    · exact cpu_online_cpu_up_ne true online cpu i (by omega)
    · rfl

theorem down_loop_online_lt (k : Nat) : ∀ (online : List Bool) (cpu i : Nat),
    i < cpu → cpu_online (down_loop online cpu k) i = cpu_online online i := by
  induction k with
  | zero => intro online cpu i _; rfl
  | succ k ih =>
    intro online cpu i hi
    show cpu_online (down_loop _ (cpu + 1) k) i = _
    rw [ih _ (cpu + 1) i (by omega)]
    split
    · exact cpu_online_cpu_down_ne true online cpu i (by omega)
    · rfl

/-- Every index the resume / disable loop walks over ends up online. -/
theorem up_loop_online_of_mem (k : Nat) : ∀ (online : List Bool) (cpu i : Nat),
    cpu ≤ i → i < cpu + k → i < online.length →
    cpu_online (up_loop online cpu k) i = true := by
  induction k with
  | zero => intro online cpu i h1 h2 _; omega
  | succ k ih =>
    intro online cpu i h1 h2 hlen
    show cpu_online (up_loop (if cpu_online online cpu = false
        then cpu_up true online cpu else online) (cpu + 1) k) i = true
    rcases Nat.eq_or_lt_of_le h1 with heq | hlt
    · subst heq
      rw [up_loop_online_lt k _ (cpu + 1) cpu (by omega)]
      split
      · next hoff =>
          rw [cpu_up, if_pos ⟨rfl, hoff, hlen⟩]
          exact cpu_online_set_self online true cpu hlen
      · next hon => simpa using hon
    · refine ih _ (cpu + 1) i (by omega) (by omega) ?_
      split
      · rw [cpu_up_length]; exact hlen
      · exact hlen

/-- Counterexample to claim C4 as stated: from online set
`[true, true, false]` (unit 2 offline), suspend followed by resume yields
`[true, true, true]` — full capacity, not the pre-suspend set. -/
theorem suspend_resume_counterexample :
    (asmp_late_resume ⟨100, true, 3, 1, 25, 5, 1, 5⟩
      (asmp_early_suspend ⟨100, true, 3, 1, 25, 5, 1, 5⟩
        ⟨[true, true, false], 0, true, true⟩)).online = [true, true, true] ∧
    [true, true, true] ≠ [true, true, false] := by
  decide

/-- Claim C4 amended: with `scroff_single_core = true` and the primary
online, suspend followed immediately by resume leaves every unit online
(full capacity restored); the pre-suspend online set is recovered exactly
only when all units were online before the suspend. -/
theorem suspend_resume_full_capacity (p : AsmpParam) (s : AsmpState)
    (hscroff : p.scroff_single_core = true)
    (h0 : cpu_online s.online 0 = true) :
    (asmp_late_resume p (asmp_early_suspend p s)).online.length =
      s.online.length ∧
    ∀ i, i < s.online.length →
      cpu_online (asmp_late_resume p (asmp_early_suspend p s)).online i =
        true := by
  have hpos : 0 < s.online.length := cpu_online_true_lt_length s.online 0 h0
  have hmid : (asmp_early_suspend p s).online =
      down_loop s.online 1 (s.online.length - 1) := by
    simp [asmp_early_suspend, hscroff]
  have hmidlen : (asmp_early_suspend p s).online.length = s.online.length := by
    rw [hmid, down_loop_length]
  have hres : (asmp_late_resume p (asmp_early_suspend p s)).online =
      up_loop (asmp_early_suspend p s).online 1
        ((asmp_early_suspend p s).online.length - 1) := by
    simp [asmp_late_resume, hscroff]
  constructor
  · rw [hres, up_loop_length, hmidlen]
  · intro i hi
    rw [hres, hmidlen]
    rcases Nat.eq_zero_or_pos i with rfl | hipos
    · rw [up_loop_online_lt _ _ 1 0 (by omega), hmid,
        down_loop_online_lt _ _ 1 0 (by omega)]
      exact h0
    · exact up_loop_online_of_mem _ _ 1 i (by omega) (by omega)
        (by rw [hmidlen]; exact hi)

/-- Witness for the amended C4 at the input of the counterexample. -/
theorem suspend_resume_full_capacity_witness :
    cpu_online (asmp_late_resume ⟨100, true, 3, 1, 25, 5, 1, 5⟩
      (asmp_early_suspend ⟨100, true, 3, 1, 25, 5, 1, 5⟩
        ⟨[true, true, false], 0, true, true⟩)).online 2 = true :=
  (suspend_resume_full_capacity ⟨100, true, 3, 1, 25, 5, 1, 5⟩
    ⟨[true, true, false], 0, true, true⟩ rfl (by decide)).2 2 (by decide)

/-- Claim C6: after a disable (writing 0 to the `enabled` param), the
controller is disabled, its tick is no longer queued, and every unit is
online (full capacity restored).  `set_enabled` never reads
`scroff_single_core`, so this holds regardless of that setting. -/
theorem disable_restores_full_capacity (s : AsmpState)
    (h0 : cpu_online s.online 0 = true) :
    (set_enabled false s).enabled = false ∧
    (set_enabled false s).workScheduled = false ∧
    (set_enabled false s).online.length = s.online.length ∧
    ∀ i, i < s.online.length →
      cpu_online (set_enabled false s).online i = true := by
  have hpos : 0 < s.online.length := cpu_online_true_lt_length s.online 0 h0
  have honline : (set_enabled false s).online =
      up_loop s.online 1 (s.online.length - 1) := by
    simp [set_enabled]
  refine ⟨by simp [set_enabled], by simp [set_enabled], ?_, ?_⟩
  · rw [honline, up_loop_length]
  · intro i hi
    rw [honline]
    rcases Nat.eq_zero_or_pos i with rfl | hipos
    · rw [up_loop_online_lt _ _ 1 0 (by omega)]; exact h0
    · exact up_loop_online_of_mem _ _ 1 i (by omega) (by omega) hi

/-- Witness for C6 from a state with unit 1 offline. -/
theorem disable_restores_full_capacity_witness :
    (set_enabled false ⟨[true, false], 3, true, true⟩).enabled = false ∧
    (set_enabled false ⟨[true, false], 3, true, true⟩).workScheduled = false ∧
    (set_enabled false ⟨[true, false], 3, true, true⟩).online.length =
      ([true, false] : List Bool).length ∧
    ∀ i, i < ([true, false] : List Bool).length →
      cpu_online (set_enabled false ⟨[true, false], 3, true, true⟩).online i =
        true :=
  disable_restores_full_capacity ⟨[true, false], 3, true, true⟩ (by decide)

/-- Counterexample to claim C7 as stated: a qualifying scale-up tick whose
hotplug action fails (`ok = false`, counter at 7, threshold `cycle_up = 3`
met) leaves the pool unchanged yet still resets `cycle` to 0 — the source
runs `cycle = 0` unconditionally after `cpu_up`, ignoring its result — and
the next qualifying tick therefore does not retry the action (its counter
restarts at 1 < 3). -/
theorem failed_action_counterexample :
    (asmp_work_fn ⟨100, true, 4, 1, 25, 5, 3, 5⟩ 30 [] false
      ⟨[true, false, false, false], 7, true, true⟩).online =
      [true, false, false, false] ∧
    (asmp_work_fn ⟨100, true, 4, 1, 25, 5, 3, 5⟩ 30 [] false
      ⟨[true, false, false, false], 7, true, true⟩).cycle = 0 ∧
    (asmp_work_fn ⟨100, true, 4, 1, 25, 5, 3, 5⟩ 30 [] true
      (asmp_work_fn ⟨100, true, 4, 1, 25, 5, 3, 5⟩ 30 [] false
        ⟨[true, false, false, false], 7, true, true⟩)).online =
      [true, false, false, false] := by
  decide

/-- Claim C7 amended: when the external hotplug action of a qualifying
scale-up tick fails, the online set is unchanged but `cycle` is still reset
to 0; the action is not retried on the next qualifying tick — hysteresis
restarts from zero instead. -/
theorem failed_action_resets_cycle (p : AsmpParam) (load : Nat)
    (rates : List Nat) (s : AsmpState)
    (hup : num_online_cpus s.online < p.max_cpus ∧ p.load_limit_up ≤ load)
    (hcyc : p.cycle_up ≤ s.cycle + 1) :
    (asmp_work_fn p load rates false s).online = s.online ∧
    (asmp_work_fn p load rates false s).cycle = 0 := by
  unfold asmp_work_fn
  simp only [if_pos hup, if_pos hcyc]
  refine ⟨?_, trivial⟩
  show cpu_up false s.online (cpumask_next_zero s.online) = s.online
  simp [cpu_up]

/-- Witness for the amended C7 at the input of the counterexample. -/
theorem failed_action_resets_cycle_witness :
    (asmp_work_fn ⟨100, true, 4, 1, 25, 5, 3, 5⟩ 30 [] false
      ⟨[true, false, false, false], 7, true, true⟩).online =
      [true, false, false, false] ∧
    (asmp_work_fn ⟨100, true, 4, 1, 25, 5, 3, 5⟩ 30 [] false
      ⟨[true, false, false, false], 7, true, true⟩).cycle = 0 :=
  failed_action_resets_cycle ⟨100, true, 4, 1, 25, 5, 3, 5⟩ 30 []
    ⟨[true, false, false, false], 7, true, true⟩ (by decide) (by decide)

theorem slowestAux_skip (l : List (Bool × Nat)) :
    ∀ (idx : Nat) (acc : Nat × Nat), (∀ pr ∈ l, pr.1 = false) →
    slowestAux l idx acc = acc := by
  induction l with
  | nil => intro idx acc _; rfl
  | cons hd tl ih =>
    intro idx acc h
    obtain ⟨b, r⟩ := hd
    obtain ⟨sc, sr⟩ := acc
    have hb : b = false := h (b, r) (by simp)
    show (if b = true ∧ 0 < idx ∧ r < sr then _ else _) = _
    rw [if_neg (by simp [hb])]
    exact ih (idx + 1) (sc, sr) (fun pr hpr => h pr (by simp [hpr]))

/-- When no non-primary cpu is online, `get_slowest_cpu` has no error to
signal: it returns the default `slow_cpu = 1`. -/
theorem get_slowest_cpu_no_eligible (online : List Bool) (rates : List Nat)
    (h : ∀ i, 1 ≤ i → cpu_online online i = false) :
    get_slowest_cpu online rates = 1 := by
  unfold get_slowest_cpu
  cases online with
  | nil => rfl
  | cons b t =>
    cases rates with
    | nil => rfl
    | cons r rs =>
      have htail : ∀ x ∈ t, x = false := by
        intro x hx
        obtain ⟨j, hj, hget⟩ := List.getElem_of_mem hx
        have := h (j + 1) (by omega)
        rw [cpu_online, List.getD_cons_succ,
          List.getD_eq_getElem t false hj] at this
        rw [← hget]; exact this
      have hzip : ∀ pr ∈ t.zip rs, pr.1 = false := by
        intro pr hpr
        obtain ⟨a, rv⟩ := pr
        exact htail a (List.of_mem_zip hpr).1
      rw [List.zip_cons_cons]
      show (slowestAux ((b, r) :: t.zip rs) 0 (1, ULONG_MAX)).1 = 1
      have hstep : slowestAux ((b, r) :: t.zip rs) 0 (1, ULONG_MAX) =
          slowestAux (t.zip rs) 1 (1, ULONG_MAX) := by
        show (if b = true ∧ 0 < 0 ∧ r < ULONG_MAX then _ else _) = _
        rw [if_neg (by simp)]
      rw [hstep, slowestAux_skip (t.zip rs) 1 (1, ULONG_MAX) hzip]

/-- Counterexample to claim C8 as stated: with only the primary online,
`get_slowest_cpu` does not fail with a distinguishable error — it returns
the unit id 1, which is not even online. -/
theorem no_eligible_counterexample :
    get_slowest_cpu [true, false, false] [100, 200, 300] = 1 ∧
    cpu_online [true, false, false] 1 = false := by
  constructor
  · rfl
  · rfl

/-- Claim C8 amended: `get_slowest_cpu` has no error return.  When no
non-primary unit is online it returns unit 1 by default; a tick in that
situation (scale-up condition not holding) leaves the online set untouched,
because `cpu_down` on the offline unit 1 has no effect.  The `min_cpus`
bound is enforced by the tick's guard `online > min_cpus` before selection
is ever invoked. -/
theorem no_eligible_unit_fallback (p : AsmpParam) (load : Nat)
    (rates : List Nat) (ok : Bool) (s : AsmpState)
    (honly : ∀ i, 1 ≤ i → cpu_online s.online i = false)
    (hnup : ¬ (num_online_cpus s.online < p.max_cpus ∧
               p.load_limit_up ≤ load)) :
    get_slowest_cpu s.online rates = 1 ∧
    (asmp_work_fn p load rates ok s).online = s.online := by
  have hg := get_slowest_cpu_no_eligible s.online rates honly
  refine ⟨hg, ?_⟩
  unfold asmp_work_fn
  simp only [if_neg hnup]
  split
  · split
    · show cpu_down ok s.online (get_slowest_cpu s.online rates) = s.online
      rw [hg, cpu_down, if_neg]
      simp [honly 1 (le_refl 1)]
    · rfl
  · rfl

/-- Witness for the amended C8 at the input of the counterexample. -/
theorem no_eligible_unit_fallback_witness :
    get_slowest_cpu [true, false, false] [100, 200, 300] = 1 ∧
    (asmp_work_fn ⟨100, true, 1, 0, 25, 5, 1, 5⟩ 2 [100, 200, 300] true
      ⟨[true, false, false], 4, true, true⟩).online =
      [true, false, false] :=
  no_eligible_unit_fallback ⟨100, true, 1, 0, 25, 5, 1, 5⟩ 2 [100, 200, 300]
    true ⟨[true, false, false], 4, true, true⟩
    (by
      intro i hi
      match i with
      | 0 => exact absurd hi (by decide)
      | 1 => rfl
      | 2 => rfl
      | n + 3 => rfl)
    (by decide)

theorem slowestAux_fst_pos (l : List (Bool × Nat)) :
    ∀ (idx : Nat) (acc : Nat × Nat), 0 < acc.1 →
    0 < (slowestAux l idx acc).1 := by
  induction l with
  | nil => intro idx acc h; exact h
  | cons hd tl ih =>
    intro idx acc h
    obtain ⟨b, r⟩ := hd
    obtain ⟨sc, sr⟩ := acc
    simp only [slowestAux]
    split
    · next hc => exact ih (idx + 1) (idx, r) hc.2.1
    · exact ih (idx + 1) (sc, sr) h

/-- The function `get_slowest_cpu` never selects the primary cpu: its result is ≥ 1. -/
theorem get_slowest_cpu_pos (online : List Bool) (rates : List Nat) :
    0 < get_slowest_cpu online rates :=
  slowestAux_fst_pos (online.zip rates) 0 (1, ULONG_MAX) Nat.one_pos

/-- No single controller step ever knocks the primary cpu offline. -/
theorem step_preserves_primary {s t : AsmpState} (hst : Step s t)
    (h0 : cpu_online s.online 0 = true) : cpu_online t.online 0 = true := by
  cases hst with
  | tick p load rates ok s h =>
    simp only [asmp_work_fn]
    split
    · split
      · exact cpu_online_cpu_up ok s.online (cpumask_next_zero s.online) 0 h0
      · exact h0
    · split
      · split
        · show cpu_online
            (cpu_down ok s.online (get_slowest_cpu s.online rates)) 0 = true
          rw [cpu_online_cpu_down_ne ok s.online _ 0
            (by have := get_slowest_cpu_pos s.online rates; omega)]
          exact h0
        · exact h0
      · exact h0
  | suspend p s =>
    show cpu_online (if p.scroff_single_core then _ else _) 0 = true
    split
    · rw [down_loop_online_lt _ _ 1 0 (by omega)]; exact h0
    · exact h0
  | resume p s =>
    show cpu_online (if p.scroff_single_core then _ else _) 0 = true
    split
    · rw [up_loop_online_lt _ _ 1 0 (by omega)]; exact h0
    · exact h0
  | setEnabled v s =>
    simp only [set_enabled]
    split
    · exact h0
    · show cpu_online (up_loop s.online 1 (s.online.length - 1)) 0 = true
      rw [up_loop_online_lt _ _ 1 0 (by omega)]
      exact h0

/-- Claim C1: from any initial state with the primary cpu online, every
reachable state (under arbitrary interleavings of ticks, suspends, resumes
and enabled-writes, with arbitrary parameter values at every step) keeps
the primary online and at least one cpu online; moreover the down-selector
can never name cpu 0 for removal. -/
theorem primary_always_online (init s : AsmpState)
    (h0 : cpu_online init.online 0 = true) (hr : Reachable init s) :
    cpu_online s.online 0 = true ∧ 1 ≤ num_online_cpus s.online ∧
    ∀ rates, 1 ≤ get_slowest_cpu s.online rates := by
  have hinv : cpu_online s.online 0 = true := by
    induction hr with
    | refl => exact h0
    | tail _ hstep ih => exact step_preserves_primary hstep ih
  exact ⟨hinv, one_le_count_of_primary s.online hinv,
    fun rates => get_slowest_cpu_pos s.online rates⟩

/-- Witness for C1: a state reached from booting with one online cpu by a
suspend step followed by an enabled-write. -/
theorem primary_always_online_witness :
    cpu_online (set_enabled true (asmp_early_suspend
      ⟨100, true, 2, 1, 25, 5, 1, 5⟩
      ⟨[true, true], 0, true, true⟩)).online 0 = true ∧
    1 ≤ num_online_cpus (set_enabled true (asmp_early_suspend
      ⟨100, true, 2, 1, 25, 5, 1, 5⟩
      ⟨[true, true], 0, true, true⟩)).online ∧
    ∀ rates, 1 ≤ get_slowest_cpu (set_enabled true (asmp_early_suspend
      ⟨100, true, 2, 1, 25, 5, 1, 5⟩
      ⟨[true, true], 0, true, true⟩)).online rates :=
  primary_always_online ⟨[true, true], 0, true, true⟩ _ (by decide)
    (Relation.ReflTransGen.tail
      (Relation.ReflTransGen.single
        (Step.suspend ⟨100, true, 2, 1, 25, 5, 1, 5⟩
          ⟨[true, true], 0, true, true⟩))
      (Step.setEnabled true _))

/-- Full characterisation of the `get_slowest_cpu` loop.  From accumulator
`(sc, sr)` the loop either keeps the accumulator, or returns the first
eligible entry (online bit set, absolute index `idx + j` positive) whose
rate strictly undercuts `sr`; the returned rate is a minimum over `sr` and
all eligible entries, and among eligible entries achieving it the earliest
one is returned. -/
theorem slowestAux_spec (l : List (Bool × Nat)) :
    ∀ (idx sc sr : Nat),
    ((slowestAux l idx (sc, sr) = (sc, sr)) ∨
      (∃ j, j < l.length ∧ (l.getD j (false, 0)).1 = true ∧ 0 < idx + j ∧
        (l.getD j (false, 0)).2 < sr ∧
        slowestAux l idx (sc, sr) = (idx + j, (l.getD j (false, 0)).2))) ∧
    (slowestAux l idx (sc, sr)).2 ≤ sr ∧
    (∀ j, j < l.length → (l.getD j (false, 0)).1 = true → 0 < idx + j →
      (slowestAux l idx (sc, sr)).2 ≤ (l.getD j (false, 0)).2) ∧
    (∀ j, j < l.length → (l.getD j (false, 0)).1 = true → 0 < idx + j →
      (l.getD j (false, 0)).2 = (slowestAux l idx (sc, sr)).2 →
      (slowestAux l idx (sc, sr) = (sc, sr) ∨
        (slowestAux l idx (sc, sr)).1 ≤ idx + j)) := by
  induction l with
  | nil =>
    intro idx sc sr
    refine ⟨Or.inl rfl, le_refl sr, ?_, ?_⟩ <;> intro j hj <;> simp at hj
  | cons hd tl ih =>
    intro idx sc sr
    obtain ⟨b, r⟩ := hd
    by_cases hc : b = true ∧ 0 < idx ∧ r < sr
    · have hred : slowestAux ((b, r) :: tl) idx (sc, sr) =
          slowestAux tl (idx + 1) (idx, r) := by
        show (if b = true ∧ 0 < idx ∧ r < sr then _ else _) = _
        rw [if_pos hc]
      obtain ⟨hprov, hle, hmin, htie⟩ := ih (idx + 1) idx r
      rw [hred]
      refine ⟨?_, le_trans hle (le_of_lt hc.2.2), ?_, ?_⟩
      · rcases hprov with heq | ⟨j, hj, hon, _, hlt, heqj⟩
        · right
          refine ⟨0, by simp, ?_, ?_, ?_, ?_⟩
          · simpa using hc.1
          · simpa using hc.2.1
          · simpa using hc.2.2
          · rw [heq]; simp
        · right
          refine ⟨j + 1, by simpa using hj, by simpa using hon, by omega,
            by simpa using lt_trans hlt hc.2.2, ?_⟩
          rw [heqj]
          have hidx : idx + 1 + j = idx + (j + 1) := by omega
          rw [hidx, List.getD_cons_succ]
      · intro j hj hon hpos
        cases j with
        | zero => simpa using hle
        | succ j' =>
          simpa using hmin j' (by simpa using hj) (by simpa using hon)
            (by omega)
      · intro j hj hon hpos heqr
        cases j with
        | zero =>
          rcases hprov with heq | ⟨j', _, _, _, hlt, heqj⟩
          · right
            rw [heq]
            simpa using Nat.le_add_right idx 0
          · exfalso
            rw [heqj] at heqr
            simp at heqr hlt
            omega
        | succ j' =>
          rcases htie j' (by simpa using hj) (by simpa using hon) (by omega)
            (by simpa using heqr) with heq | hle1
          · right
            rw [heq]
            exact Nat.le_add_right idx (j' + 1)
          · right
            omega
    · have hred : slowestAux ((b, r) :: tl) idx (sc, sr) =
          slowestAux tl (idx + 1) (sc, sr) := by
        show (if b = true ∧ 0 < idx ∧ r < sr then _ else _) = _
        rw [if_neg hc]
      obtain ⟨hprov, hle, hmin, htie⟩ := ih (idx + 1) sc sr
      rw [hred]
      refine ⟨?_, hle, ?_, ?_⟩
      · rcases hprov with heq | ⟨j, hj, hon, _, hlt, heqj⟩
        · exact Or.inl heq
        · right
          refine ⟨j + 1, by simpa using hj, by simpa using hon, by omega,
            by simpa using hlt, ?_⟩
          rw [heqj]
          have hidx : idx + 1 + j = idx + (j + 1) := by omega
          rw [hidx, List.getD_cons_succ]
      · intro j hj hon hpos
        cases j with
        | zero =>
          have hb : b = true := by simpa using hon
          have hsr : sr ≤ r := by
            by_contra hno
            exact hc ⟨hb, by simpa using hpos, by omega⟩
          simpa using le_trans hle hsr
        | succ j' =>
          simpa using hmin j' (by simpa using hj) (by simpa using hon)
            (by omega)
      · intro j hj hon hpos heqr
        cases j with
        | zero =>
          have hb : b = true := by simpa using hon
          have hsr : sr ≤ r := by
            by_contra hno
            exact hc ⟨hb, by simpa using hpos, by omega⟩
          rcases hprov with heq | ⟨j', _, _, _, hlt, heqj⟩
          · exact Or.inl heq
          · exfalso
            rw [heqj] at heqr
            simp at heqr hlt
            omega
        | succ j' =>
          rcases htie j' (by simpa using hj) (by simpa using hon) (by omega)
            (by simpa using heqr) with heq | hle1
          · exact Or.inl heq
          · right
            omega

theorem zip_getD (online : List Bool) (rates : List Nat) (j : Nat)
    (h1 : j < online.length) (h2 : j < rates.length) :
    (online.zip rates).getD j (false, 0) =
      (online.getD j false, rates.getD j 0) := by
  have hz : j < (online.zip rates).length := by
    rw [List.length_zip]; omega
  rw [List.getD_eq_getElem _ _ hz, List.getD_eq_getElem _ _ h1,
      List.getD_eq_getElem _ _ h2]
  exact List.getElem_zip

/-- Claim C5: selection policies.  In a pool with the primary online, at
least one non-primary unit online, at least one unit offline, realistic
rates (below the `ULONG_MAX` sentinel) and one rate per unit:
`get_slowest_cpu` picks an online, non-primary unit whose rate is minimal
among online non-primary units, breaking ties towards the lowest id; and
`cpumask_next_zero` picks the lowest-id offline unit. -/
theorem unit_selection_correct (online : List Bool) (rates : List Nat)
    (hlen : rates.length = online.length)
    (hrates : ∀ x ∈ rates, x < ULONG_MAX)
    (helig : ∃ i, 1 ≤ i ∧ cpu_online online i = true)
    (h0 : cpu_online online 0 = true)
    (hoff : num_online_cpus online < online.length) :
    (1 ≤ get_slowest_cpu online rates ∧
     cpu_online online (get_slowest_cpu online rates) = true ∧
     (∀ i, 1 ≤ i → cpu_online online i = true →
        rates.getD (get_slowest_cpu online rates) 0 ≤ rates.getD i 0) ∧
     (∀ i, 1 ≤ i → cpu_online online i = true →
        rates.getD i 0 = rates.getD (get_slowest_cpu online rates) 0 →
        get_slowest_cpu online rates ≤ i)) ∧
    (cpumask_next_zero online < online.length ∧
     cpu_online online (cpumask_next_zero online) = false ∧
     ∀ i, i < online.length → cpu_online online i = false →
        cpumask_next_zero online ≤ i) := by
  obtain ⟨hprov, hle, hmin, htie⟩ :=
    slowestAux_spec (online.zip rates) 0 1 ULONG_MAX
  obtain ⟨i0, hi01, hi0on⟩ := helig
  have hi0lt : i0 < online.length := cpu_online_true_lt_length online i0 hi0on
  have hziplen : (online.zip rates).length = online.length := by
    rw [List.length_zip]; omega
  have hentry : ∀ i, i < online.length →
      (online.zip rates).getD i (false, 0) =
        (cpu_online online i, rates.getD i 0) := by
    intro i hi
    exact zip_getD online rates i hi (by omega)
  have hri0 : rates.getD i0 0 < ULONG_MAX := by
    refine hrates _ ?_
    rw [List.getD_eq_getElem _ _ (by omega : i0 < rates.length)]
    exact List.getElem_mem _
  have hres2 : (slowestAux (online.zip rates) 0 (1, ULONG_MAX)).2 <
      ULONG_MAX := by
    have := hmin i0 (by omega) (by rw [hentry i0 hi0lt]; exact hi0on)
      (by omega)
    rw [hentry i0 hi0lt] at this
    exact lt_of_le_of_lt this hri0
  have hne : ¬ slowestAux (online.zip rates) 0 (1, ULONG_MAX) =
      (1, ULONG_MAX) := by
    intro heq
    rw [heq] at hres2
    exact lt_irrefl _ hres2
  rcases hprov with heq | ⟨j0, hj0, hon0, hpos0, _, heq0⟩
  · exact absurd heq hne
  · have hj0lt : j0 < online.length := by omega
    rw [hentry j0 hj0lt] at hon0 heq0
    have hfst : (slowestAux (online.zip rates) 0 (1, ULONG_MAX)).1 = j0 := by
      rw [heq0]; simp
    have hg : get_slowest_cpu online rates = j0 := hfst
    have hg2 : (slowestAux (online.zip rates) 0 (1, ULONG_MAX)).2 =
        rates.getD j0 0 := by
      rw [heq0]
    constructor
    · refine ⟨by omega, by rw [hg]; simpa using hon0, ?_, ?_⟩
      · intro i hi1 hion
        have hilt : i < online.length := cpu_online_true_lt_length online i hion
        have := hmin i (by omega) (by rw [hentry i hilt]; exact hion) (by omega)
        rw [hentry i hilt] at this
        rw [hg, ← hg2]
        simpa using this
      · intro i hi1 hion hieq
        have hilt : i < online.length := cpu_online_true_lt_length online i hion
        rcases htie i (by omega) (by rw [hentry i hilt]; exact hion) (by omega)
          (by rw [hentry i hilt, hg2]; rw [hg] at hieq; simpa using hieq)
          with heq2 | hle2
        · exact absurd heq2 hne
        · rw [hg]; omega
    · have hcount : online.count true < online.length := hoff
      obtain ⟨_, hzlt, hzoff, hzmin⟩ :=
        cpumask_next_zero_spec online h0 hcount
      exact ⟨hzlt, hzoff, hzmin⟩

/-- Witness for C5 at the example pool of the spec: units 0 and 1 online with
metrics 100 and 10, unit 2 offline — the down-selector names unit 1 (an
online non-primary unit) and the up-selector an offline unit. -/
theorem unit_selection_correct_witness :
    1 ≤ get_slowest_cpu [true, true, false] [100, 10, 50] ∧
    cpu_online [true, true, false]
      (get_slowest_cpu [true, true, false] [100, 10, 50]) = true ∧
    cpu_online [true, true, false]
      (cpumask_next_zero [true, true, false]) = false :=
  ⟨(unit_selection_correct [true, true, false] [100, 10, 50] rfl (by decide)
      ⟨1, le_refl 1, rfl⟩ rfl (by decide)).1.1,
   (unit_selection_correct [true, true, false] [100, 10, 50] rfl (by decide)
      ⟨1, le_refl 1, rfl⟩ rfl (by decide)).1.2.1,
   (unit_selection_correct [true, true, false] [100, 10, 50] rfl (by decide)
      ⟨1, le_refl 1, rfl⟩ rfl (by decide)).2.2.1⟩

end Autosmp
